import Mathlib

/-!
Verification of the enrichment-resolution and timeline-aggregation core of the
GLOBALISE person-data explorer (a Streamlit app over person-cluster records).

The embedding follows the source files:
  * `Search.py` — `load_enrichment_data` (location / poolparty / zotero maps),
    `get_enriched_label`;
  * `pages/Person_Details.py` — `get_enriched_label`, `get_primary_name`,
    the timeline-tab observation aggregation and sort (lines 117–244), the
    location-text fallback (lines 306–313) and the relations tab (lines 697–757);
  * `timeline_view.py` — `sort_observations`.

Python dictionaries are modelled as association lists in insertion order
(`alistFind` / `alistSet` mirror `d.get(k)` / `d[k] = v`); missing dictionary
keys are `Option.none`; Python string comparison is code-point lexicographic
comparison (`pyLt` / `pyLe`), and `str.lower()` / `str.upper()` are modelled on
the ASCII letters, the alphabet of the URIs and surrogate keys involved.
`list.sort` / `sorted` (Timsort) are stable sorts, modelled by the stable
`List.insertionSort`, which produces the same output on the same key relation.
-/
/-! ### Python string primitives -/
/-- The ASCII upper/lower letter pairs: the alphabet over which `str.lower()`
and `str.upper()` act on the URIs and surrogate keys of this dataset. -/
def upperLowerTable : List (Char × Char) :=
  [('A','a'), ('B','b'), ('C','c'), ('D','d'), ('E','e'), ('F','f'), ('G','g'),
   ('H','h'), ('I','i'), ('J','j'), ('K','k'), ('L','l'), ('M','m'), ('N','n'),
   ('O','o'), ('P','p'), ('Q','q'), ('R','r'), ('S','s'), ('T','t'), ('U','u'),
   ('V','v'), ('W','w'), ('X','x'), ('Y','y'), ('Z','z')]

/-- ASCII lowercasing of one character, as `str.lower()` acts on each
character of these ASCII strings. -/
def pyLowerChar (c : Char) : Char :=
  ((upperLowerTable.find? (fun p => p.1 == c)).map Prod.snd).getD c

/-- ASCII uppercasing of one character (`str.upper()`). -/
def pyUpperChar (c : Char) : Char :=
  ((upperLowerTable.find? (fun p => p.2 == c)).map Prod.fst).getD c

/-- `s.lower()`. -/
def pyLower (s : String) : String := ⟨s.data.map pyLowerChar⟩

/-- `s.upper()`. -/
def pyUpper (s : String) : String := ⟨s.data.map pyUpperChar⟩

/-- Code-point lexicographic `<` on character lists: Python's `str` ordering. -/
def strLtB : List Char → List Char → Bool
  | [], [] => false
  | [], _ :: _ => true
  | _ :: _, [] => false
  | a :: as, b :: bs =>
    if a.toNat < b.toNat then true
    else if b.toNat < a.toNat then false
    else strLtB as bs

/-- Python `s < t` on strings. -/
def pyLt (s t : String) : Bool := strLtB s.data t.data

/-- Python `s <= t` on strings (total order: the negation of `t < s`). -/
def pyLe (s t : String) : Bool := !(pyLt t s)

/-! ### Python dictionaries as insertion-ordered association lists -/
/-- `d.get(k)` / `k in d`: the value at the first matching key. -/
def alistFind {β : Type} : List (String × β) → String → Option β
  | [], _ => none
  | (k, v) :: t, key => if k = key then some v else alistFind t key

/-- `d[k] = v`: replace the value at an existing key in place, otherwise
append the new pair at the end (Python dicts preserve insertion order). -/
def alistSet {β : Type} : List (String × β) → String → β → List (String × β)
  | [], key, v => [(key, v)]
  | (k, w) :: t, key, v => if k = key then (k, v) :: t else (k, w) :: alistSet t key v

/-! ### Data model

Records are Python dicts with optional keys; each record category uses a
subset of these fields (`none` models an absent key). -/
structure Rec where
  observation_id : Option String := none
  annotationDate : Option String := none
  startDate : Option String := none
  endDate : Option String := none
  observation_source : Option String := none
  reconstruction_source : Option String := none
  appellation : Option String := none
  otherPerson : Option String := none
  original_label : Option String := none
deriving DecidableEq

/-- One person cluster: the six record-category lists
(`person.get('activeAs', [])`, …). -/
structure Person where
  activeAs : List Rec := []
  appellations : List Rec := []
  identities : List Rec := []
  locationRelations : List Rec := []
  events : List Rec := []
  relations : List Rec := []
deriving DecidableEq

/-- One entry of `enrichment_data['locations']` as stored by
`load_enrichment_data` (`Search.py` lines 34–40); `label` is an `Option`
because `get_enriched_label` reads it with `location_data.get('label', fallback)`,
which distinguishes an absent key from a stored (possibly empty) value. -/
structure LocationEntry where
  label : Option String := none
  latitude : Option String := none
  longitude : Option String := none
deriving DecidableEq

/-- One entry of `enrichment_data['poolparty']` (`Search.py` lines 55–61). -/
structure ConceptEntry where
  type : Option String := none
  label : Option String := none
  definition : Option String := none
deriving DecidableEq

/-- The enrichment maps a session carries (the two maps `get_enriched_label`
reads). -/
structure Enrichment where
  locations : List (String × LocationEntry) := []
  poolparty : List (String × ConceptEntry) := []
deriving DecidableEq

/-- Python truthiness of an optional string: absent and `''` are falsy. -/
def truthy : Option String → Bool
  | none => false
  | some s => s != ""

/-! ### Label resolution (`get_enriched_label`, the spec's `resolve_label`)

`Person_Details.py` lines 18–31 and `Search.py` lines 128–141 (identical
logic; the session enrichment maps are here an explicit parameter):
look up `uri.lower()` in the location map, returning
`location_data.get('label', fallback)`; else look up `uri` as given in the
poolparty map, returning its label when truthy, else `fallback`; else
`fallback`. -/
def get_enriched_label (e : Enrichment) (uri : String) (fallback : String) : String :=
  match alistFind e.locations (pyLower uri) with
  | some location_data => location_data.label.getD fallback
  | none =>
    match alistFind e.poolparty uri with
    | some poolparty_data =>
      match poolparty_data.label with
      | some l => if l = "" then fallback else l
      | none => fallback
    | none => fallback

/-- The location-text fallback of the timeline summary
(`Person_Details.py` lines 306–313, repeated at lines 393–395, 409–411,
507–509 and 568–570): `get_enriched_label(location_uri, '')`, then — when
that is empty and the original description is non-empty —
`get_enriched_label(original_desc.upper(), enrichment_data, original_desc)`.
That second call passes three positional arguments to the two-parameter
`get_enriched_label` defined in `Person_Details.py` line 18, so Python
raises `TypeError` there; the raise is modelled as `Except.error`. -/
def resolve_location_text (e : Enrichment) (uri : String)
    (original_text_description : String) : Except String String :=
  let enriched_location := get_enriched_label e uri ""
  if enriched_location = "" && original_text_description != "" then
    Except.error "TypeError: get_enriched_label() takes from 1 to 2 positional arguments but 3 were given"
  else
    Except.ok enriched_location

/-! ### Citation index (`Search.py` lines 76–81)

For each row of `zotero_uris.csv` whose `zotero_uri` is not NaN, the loader
inserts the lowercased URI and the URI as given, both mapped to
`source_reference` when present, else to the URI itself. -/
structure ZoteroRow where
  zotero_uri : Option String := none
  source_reference : Option String := none
deriving DecidableEq

def citationStep (m : List (String × String)) (row : ZoteroRow) : List (String × String) :=
  match row.zotero_uri with
  | none => m
  | some uri =>
    let cit := row.source_reference.getD uri
    alistSet (alistSet m (pyLower uri) cit) uri cit

def build_citation_index (rows : List ZoteroRow) : List (String × String) :=
  rows.foldl citationStep []

/-! ### Cross-reference resolution (`Person_Details.py` lines 50–55, 697–757) -/
/-- `get_primary_name`: the `appellation` of the first appellation record,
`'Unknown'` when the list is empty or the field absent. -/
def get_primary_name (person_data : Person) : String :=
  match person_data.appellations with
  | [] => "Unknown"
  | a :: _ => a.appellation.getD "Unknown"

/-- The relations-tab resolution (`Person_Details.py` lines 697–723): read
`rel.get('otherPerson', '')`; when it is truthy and a key of `all_data`,
the resolved cluster id, cluster and primary name; otherwise the explicit
not-found outcome (`other_person_id = None`, name `'Unknown'`), shown as
`none`. -/
def resolve_cross_reference (all_data : List (String × Person)) (rel : Rec) :
    Option (String × Person × String) :=
  let other_person_uri := rel.otherPerson.getD ""
  if other_person_uri != "" then
    match alistFind all_data other_person_uri with
    | some other_person_data =>
      some (other_person_uri, other_person_data, get_primary_name other_person_data)
    | none => none
  else
    none

/-- The two keys each processed `zotero_uris.csv` row contributes, in
insertion order. -/
def zoteroKeys (rows : List ZoteroRow) : List String :=
  rows.flatMap (fun r =>
    match r.zotero_uri with
    | none => []
    | some u => [pyLower u, u])

/-! ### Observation aggregation (`Person_Details.py` tab t0, lines 117–222)

The five processed categories, in the code's visitation order; the
`relations` list has no processing loop in this tab. -/
inductive Cat
  | activities
  | appellations
  | identities
  | locations
  | events
deriving DecidableEq

/-- The timeline's `Observation` dict (`Person_Details.py` lines 124–135):
`dates` is a Python `set`, modelled as a duplicate-free list in insertion
order (only emptiness and the minimum are consumed). -/
structure Observation where
  observation_id : String := ""
  dates : List String := []
  source : String := "N/A"
  reconstruction_source : String := "N/A"
  activities : List Rec := []
  appellations : List Rec := []
  identities : List Rec := []
  locations : List Rec := []
  events : List Rec := []
deriving DecidableEq

/-- The fresh Observation created on first sighting of an id: sources come
from the creating record, `'N/A'` when the field is absent. -/
def initObs (oid : String) (r : Rec) : Observation :=
  { observation_id := oid
    dates := []
    source := r.observation_source.getD "N/A"
    reconstruction_source := r.reconstruction_source.getD "N/A" }

/-- `observations[obs_id][category].append(record)`. -/
def catAppend (c : Cat) (o : Observation) (r : Rec) : Observation :=
  match c with
  | .activities => { o with activities := o.activities ++ [r] }
  | .appellations => { o with appellations := o.appellations ++ [r] }
  | .identities => { o with identities := o.identities ++ [r] }
  | .locations => { o with locations := o.locations ++ [r] }
  | .events => { o with events := o.events ++ [r] }

/-- The date fields each category contributes (`annotationDate`, and
`startDate` for activities and events). -/
def catDates (c : Cat) (r : Rec) : List (Option String) :=
  match c with
  | .activities => [r.annotationDate, r.startDate]
  | .appellations => [r.annotationDate]
  | .identities => [r.annotationDate]
  | .locations => [r.annotationDate]
  | .events => [r.annotationDate, r.startDate]

/-- `if record.get(field): observations[obs_id]['dates'].add(...)`. -/
def addDate (ds : List String) (d : Option String) : List String :=
  match d with
  | none => ds
  | some s => if s = "" then ds else if s ∈ ds then ds else ds ++ [s]

def addDates (o : Observation) (l : List (Option String)) : Observation :=
  { o with dates := l.foldl addDate o.dates }

/-- One loop iteration of the aggregation: skip the record unless
`obs_id = record.get('observation_id')` is truthy; create the Observation on
first sighting; append the record to its category list and union its dates. -/
def step (c : Cat) (m : List (String × Observation)) (r : Rec) :
    List (String × Observation) :=
  match r.observation_id with
  | none => m
  | some oid =>
    if oid = "" then m
    else
      alistSet m oid
        (addDates (catAppend c ((alistFind m oid).getD (initObs oid r)) r) (catDates c r))

/-- The whole aggregation (the spec's `aggregate_observations`): the five
category loops of `Person_Details.py` lines 121–222, in source order. -/
def aggregateObservations (p : Person) : List (String × Observation) :=
  p.events.foldl (step .events)
    (p.locationRelations.foldl (step .locations)
      (p.identities.foldl (step .identities)
        (p.appellations.foldl (step .appellations)
          (p.activeAs.foldl (step .activities) []))))

/-- All records an Observation holds, across its five category lists. -/
def obsRecords (o : Observation) : List Rec :=
  o.activities ++ o.appellations ++ o.identities ++ o.locations ++ o.events

/-- How often record `r` occurs across all category lists of all
Observations of the aggregation result. -/
def recordCount : List (String × Observation) → Rec → Nat
  | [], _ => 0
  | (_, o) :: t, r => (obsRecords o).count r + recordCount t r

/-- The five processed record lists of a cluster, concatenated in
visitation order (`relations` is not among them). -/
def timelineRecords (p : Person) : List Rec :=
  p.activeAs ++ p.appellations ++ p.identities ++ p.locationRelations ++ p.events

/-- Concrete data for the C10 witness: the creating activity record lacks
`observation_source`; a later appellation record of the same observation
carries a real source. -/
def c10ActRec : Rec := { observation_id := some "o1" }

def c10AppRec : Rec :=
  { observation_id := some "o1", observation_source := some "VOC 1234",
    appellation := some "Jan" }

def c10Person : Person := { activeAs := [c10ActRec], appellations := [c10AppRec] }

def c10Obs : Observation :=
  { observation_id := "o1", activities := [c10ActRec], appellations := [c10AppRec] }

/-! ### Timeline sequencing (`Person_Details.py` lines 227–244)

For each Observation the sort date is the lexicographically smallest of its
truthy date strings (`sorted([str(d) for d in dates if d])[0]`), `'Unknown'`
when there is none; the list is then sorted by that key alone.
`obs_list.sort` is Timsort, a stable sort; a stable sort for a given key
relation has exactly one possible output, so the stable
`List.insertionSort` computes it. -/
def dateLe (a b : String) : Prop := pyLe a b = true

instance : DecidableRel dateLe := fun a b => by unfold dateLe; infer_instance

def filteredDates (o : Observation) : List String := o.dates.filter (fun d => d != "")

def sortDate (o : Observation) : String :=
  match List.insertionSort dateLe (filteredDates o) with
  | [] => "Unknown"
  | d :: _ => d

def obsLe (a b : Observation) : Prop := dateLe (sortDate a) (sortDate b)

instance : DecidableRel obsLe := fun a b => by unfold obsLe; infer_instance

/-- The spec's `sequence_timeline`: `obs_list.sort(key=lambda x: x['sort_date'])`
over the aggregated Observations, in dictionary order. -/
def sequenceTimeline (m : List (String × Observation)) : List Observation :=
  List.insertionSort obsLe (m.map Prod.snd)

/-- Concrete input for the C2 witness: one Observation dated 1675, one
undated. -/
def c2Timeline : List (String × Observation) :=
  [("d1", { observation_id := "d1", dates := ["1675"] }),
   ("u1", { observation_id := "u1" })]

/-! ### `timeline_view.sort_observations` (lines 107–119)

`sorted(observations.items(), key=sort_key)` with
`sort_key(item) = (year, obs_id)`, year `9999` when `None`. -/
/-- One entry of `timeline_view.group_by_observation`'s dict, as
`sort_observations` receives it: the sort key reads `obs_data.get('year')`
and the id. -/
structure TVObs where
  date : Option String := none
  year : Option Nat := none
  source : String := ""
  location_in_source : String := ""
  appellations : List Rec := []
  activities : List Rec := []
  identities : List Rec := []
  locations : List Rec := []
  relations : List Rec := []
  events : List Rec := []
deriving DecidableEq

/-- `sort_key(item)`: `(9999, obs_id)` for `year is None`, else `(year, obs_id)`. -/
def tvSortKey (item : String × TVObs) : Nat × String :=
  match item.2.year with
  | none => (9999, item.1)
  | some year => (year, item.1)

/-- The Python tuple order on the sort keys. -/
def tvLe (a b : String × TVObs) : Prop :=
  (tvSortKey a).1 < (tvSortKey b).1 ∨
    ((tvSortKey a).1 = (tvSortKey b).1 ∧ pyLe (tvSortKey a).2 (tvSortKey b).2 = true)

instance : DecidableRel tvLe := fun a b => by unfold tvLe; infer_instance

/-- `sorted(...)` over the grouped observations (stable, so the stable
insertion sort computes it). -/
def sort_observations (observations : List (String × TVObs)) : List (String × TVObs) :=
  List.insertionSort tvLe observations

theorem pyLowerChar_idem (c : Char) : pyLowerChar (pyLowerChar c) = pyLowerChar c := by
  unfold pyLowerChar
  cases hfind : upperLowerTable.find? (fun p => p.1 == c) with
  | none => simp [hfind]
  | some p =>
    have hp : p ∈ upperLowerTable := List.mem_of_find?_eq_some hfind
    have hnone : upperLowerTable.find? (fun q => q.1 == p.2) = none := by
      apply List.find?_eq_none.mpr
      intro q hq
      exact (by decide : ∀ q ∈ upperLowerTable, ∀ r ∈ upperLowerTable,
        ¬ (q.1 == r.2) = true) q hq p hp
    simp [hfind, hnone]

theorem pyLower_idem (s : String) : pyLower (pyLower s) = pyLower s := by
  unfold pyLower
  have h : (String.mk (s.data.map pyLowerChar)).data = s.data.map pyLowerChar := rfl
  rw [h, List.map_map]
  have h2 : s.data.map (pyLowerChar ∘ pyLowerChar) = s.data.map pyLowerChar :=
    List.map_congr_left (fun c _ => pyLowerChar_idem c)
  rw [h2]

theorem strLtB_asymm : ∀ as bs, strLtB as bs = true → strLtB bs as = false := by
  intro as
  induction as with
  | nil =>
    intro bs _
    cases bs with
    | nil => rfl
    | cons b bs => rfl
  | cons a as ih =>
    intro bs h
    cases bs with
    | nil => simp [strLtB] at h
    | cons b bs =>
      by_cases h1 : a.toNat < b.toNat
      · simp [strLtB, h1, Nat.lt_asymm h1]
      · by_cases h2 : b.toNat < a.toNat
        · simp [strLtB, h1, h2] at h
        · simp only [strLtB, if_neg h1, if_neg h2] at h ⊢
          exact ih bs h

theorem strLtB_trans : ∀ as bs cs, strLtB as bs = true → strLtB bs cs = true →
    strLtB as cs = true := by
  intro as
  induction as with
  | nil =>
    intro bs cs h1 h2
    cases bs with
    | nil => simp [strLtB] at h1
    | cons b bs =>
      cases cs with
      | nil => simp [strLtB] at h2
      | cons c cs => rfl
  | cons a as ih =>
    intro bs cs h1 h2
    cases bs with
    | nil => simp [strLtB] at h1
    | cons b bs =>
      cases cs with
      | nil => simp [strLtB] at h2
      | cons c cs =>
        by_cases hab : a.toNat < b.toNat <;> by_cases hbc : b.toNat < c.toNat
        · simp [strLtB, show a.toNat < c.toNat by omega]
        · by_cases hcb : c.toNat < b.toNat
          · simp [strLtB, hbc, hcb] at h2
          · simp [strLtB, show a.toNat < c.toNat by omega]
        · by_cases hba : b.toNat < a.toNat
          · simp [strLtB, hab, hba] at h1
          · simp [strLtB, show a.toNat < c.toNat by omega]
        · by_cases hba : b.toNat < a.toNat
          · simp [strLtB, hab, hba] at h1
          · by_cases hcb : c.toNat < b.toNat
            · simp [strLtB, hbc, hcb] at h2
            · have hac : ¬ a.toNat < c.toNat := by omega
              have hca : ¬ c.toNat < a.toNat := by omega
              simp only [strLtB, if_neg hab, if_neg hba] at h1
              simp only [strLtB, if_neg hbc, if_neg hcb] at h2
              simp only [strLtB, if_neg hac, if_neg hca]
              exact ih bs cs h1 h2

theorem strLtB_conn : ∀ as bs, strLtB as bs = false → strLtB bs as = false → as = bs := by
  intro as
  induction as with
  | nil =>
    intro bs h1 _
    cases bs with
    | nil => rfl
    | cons b bs => simp [strLtB] at h1
  | cons a as ih =>
    intro bs h1 h2
    cases bs with
    | nil => simp [strLtB] at h2
    | cons b bs =>
      by_cases hab : a.toNat < b.toNat
      · simp [strLtB, hab] at h1
      · by_cases hba : b.toNat < a.toNat
        · simp [strLtB, hba] at h2
        · have hcc : a = b := Char.ext (UInt32.ext (by omega : a.toNat = b.toNat))
          subst hcc
          simp only [strLtB, if_neg hab] at h1 h2
          rw [ih bs h1 h2]

theorem pyLe_total (s t : String) : pyLe s t = true ∨ pyLe t s = true := by
  by_cases h : pyLt t s = true
  · right
    have := strLtB_asymm _ _ h
    simp [pyLe, pyLt, this]
  · left
    simp [pyLe] at h ⊢
    exact h

theorem pyLt_conn (s t : String) (h1 : pyLt s t = false) (h2 : pyLt t s = false) : s = t := by
  have h := strLtB_conn s.data t.data h1 h2
  cases s
  cases t
  exact congrArg String.mk h

theorem pyLe_trans (a b c : String) (h1 : pyLe a b = true) (h2 : pyLe b c = true) :
    pyLe a c = true := by
  simp only [pyLe, Bool.not_eq_true'] at h1 h2 ⊢
  by_contra hac
  rw [Bool.not_eq_false] at hac
  by_cases hbc : pyLt b c = true
  · have hba : strLtB b.data a.data = true := strLtB_trans b.data c.data a.data hbc hac
    rw [show strLtB b.data a.data = pyLt b a from rfl, h1] at hba
    exact Bool.false_ne_true hba
  · rw [Bool.not_eq_true] at hbc
    have hbceq : b = c := pyLt_conn b c hbc h2
    subst hbceq
    rw [hac] at h1
    exact Bool.noConfusion h1

theorem alistFind_alistSet_self {β : Type} (m : List (String × β)) (k : String) (v : β) :
    alistFind (alistSet m k v) k = some v := by
  induction m with
  | nil => simp [alistSet, alistFind]
  | cons kv t ih =>
    obtain ⟨k', w⟩ := kv
    by_cases h : k' = k
    · simp [alistSet, alistFind, h]
    · simp [alistSet, alistFind, h, ih]

theorem alistFind_alistSet_ne {β : Type} (m : List (String × β)) (k k' : String) (v : β)
    (h : k' ≠ k) : alistFind (alistSet m k v) k' = alistFind m k' := by
  induction m with
  | nil => simp [alistSet, alistFind, Ne.symm h]
  | cons kv t ih =>
    obtain ⟨k₀, w⟩ := kv
    by_cases h0 : k₀ = k
    · subst h0
      simp [alistSet, alistFind, Ne.symm h]
    · by_cases h1 : k₀ = k'
      · subst h1
        simp [alistSet, alistFind, h0]
      · simp [alistSet, alistFind, h0, h1, ih]

theorem mem_alistSet {β : Type} (m : List (String × β)) (k : String) (v : β) (p : String × β)
    (h : p ∈ alistSet m k v) : p ∈ m ∨ p = (k, v) := by
  induction m with
  | nil => simpa [alistSet] using h
  | cons kv t ih =>
    obtain ⟨k₀, w⟩ := kv
    by_cases h0 : k₀ = k
    · subst h0
      rw [show alistSet ((k₀, w) :: t) k₀ v = (k₀, v) :: t from if_pos rfl] at h
      rcases List.mem_cons.mp h with h1 | h1
      · right; exact h1
      · left; exact List.mem_cons_of_mem _ h1
    · simp only [alistSet, if_neg h0, List.mem_cons] at h
      rcases h with h1 | h1
      · left; exact h1 ▸ List.mem_cons_self _ _
      · rcases ih h1 with h' | h'
        · left; exact List.mem_cons_of_mem _ h'
        · right; exact h'

theorem mem_keys_alistSet {β : Type} (m : List (String × β)) (k : String) (v : β) (a : String)
    (h : a ∈ (alistSet m k v).map Prod.fst) : a ∈ m.map Prod.fst ∨ a = k := by
  simp only [List.mem_map] at h
  obtain ⟨p, hp, hpa⟩ := h
  rcases mem_alistSet m k v p hp with h' | h'
  · left; exact List.mem_map.2 ⟨p, h', hpa⟩
  · right; rw [← hpa, h']

theorem nodup_keys_alistSet {β : Type} (m : List (String × β)) (k : String) (v : β)
    (h : (m.map Prod.fst).Nodup) : ((alistSet m k v).map Prod.fst).Nodup := by
  induction m with
  | nil => simp [alistSet]
  | cons kv t ih =>
    obtain ⟨k₀, w⟩ := kv
    simp only [List.map_cons, List.nodup_cons] at h
    by_cases h0 : k₀ = k
    · subst h0
      simpa [alistSet] using h
    · simp only [alistSet, if_neg h0, List.map_cons, List.nodup_cons]
      refine ⟨fun hmem => ?_, ih h.2⟩
      rcases mem_keys_alistSet t k v k₀ hmem with h' | h'
      · exact h.1 h'
      · exact h0 h'

theorem alistFind_mem {β : Type} (m : List (String × β)) (k : String) (v : β)
    (h : alistFind m k = some v) : (k, v) ∈ m := by
  induction m with
  | nil => simp [alistFind] at h
  | cons kv t ih =>
    obtain ⟨k₀, w⟩ := kv
    by_cases h0 : k₀ = k
    · subst h0
      rw [show alistFind ((k₀, w) :: t) k₀ = some w from if_pos rfl] at h
      rw [Option.some.injEq] at h
      subst h
      exact List.mem_cons_self _ _
    · simp only [alistFind, if_neg h0] at h
      exact List.mem_cons_of_mem _ (ih h)

/-! ### Helper lemmas for the citation index -/
theorem alistSet_keys_of_not_mem {β : Type} (m : List (String × β)) (k : String) (v : β)
    (h : k ∉ m.map Prod.fst) : (alistSet m k v).map Prod.fst = m.map Prod.fst ++ [k] := by
  induction m with
  | nil => simp [alistSet]
  | cons kv t ih =>
    obtain ⟨k₀, w⟩ := kv
    simp only [List.map_cons, List.mem_cons, not_or] at h
    have h0 : k₀ ≠ k := fun hh => h.1 hh.symm
    simp only [alistSet, if_neg h0, List.map_cons, List.cons_append, List.cons.injEq, true_and]
    exact ih h.2

theorem zoteroKeys_length (rows : List ZoteroRow) :
    (zoteroKeys rows).length = 2 * rows.countP (fun r => r.zotero_uri.isSome) := by
  induction rows with
  | nil => rfl
  | cons r rest ih =>
    cases hu : r.zotero_uri with
    | none => simp [zoteroKeys, List.countP_cons, hu] at ih ⊢; omega
    | some u => simp [zoteroKeys, List.countP_cons, hu] at ih ⊢; omega

theorem citation_fold_keys (rows : List ZoteroRow) : ∀ m : List (String × String),
    (m.map Prod.fst ++ zoteroKeys rows).Nodup →
    (rows.foldl citationStep m).map Prod.fst = m.map Prod.fst ++ zoteroKeys rows := by
  induction rows with
  | nil => intro m _; simp [zoteroKeys]
  | cons r rest ih =>
    intro m hnd
    cases hu : r.zotero_uri with
    | none =>
      have hz : zoteroKeys (r :: rest) = zoteroKeys rest := by simp [zoteroKeys, hu]
      rw [hz] at hnd
      have hstep : citationStep m r = m := by simp [citationStep, hu]
      simpa [hstep, hz] using ih m hnd
    | some u =>
      have hz : zoteroKeys (r :: rest) = pyLower u :: u :: zoteroKeys rest := by
        simp [zoteroKeys, hu]
      rw [hz] at hnd
      have h1 : pyLower u ∉ m.map Prod.fst := by
        intro hmem
        exact (List.disjoint_of_nodup_append hnd) hmem (List.mem_cons_self _ _)
      have h2 : u ∉ m.map Prod.fst := by
        intro hmem
        exact (List.disjoint_of_nodup_append hnd) hmem
          (List.mem_cons_of_mem _ (List.mem_cons_self _ _))
      have h3 : u ≠ pyLower u := by
        have := (List.nodup_append.mp hnd).2.1
        rw [List.nodup_cons] at this
        intro hh
        exact this.1 (hh ▸ List.mem_cons_self _ _)
      have hstep : (citationStep m r).map Prod.fst = m.map Prod.fst ++ [pyLower u, u] := by
        have e1 : (alistSet m (pyLower u) (r.source_reference.getD u)).map Prod.fst =
            m.map Prod.fst ++ [pyLower u] := alistSet_keys_of_not_mem m _ _ h1
        have h2' : u ∉ (alistSet m (pyLower u) (r.source_reference.getD u)).map Prod.fst := by
          rw [e1]
          simp only [List.mem_append, List.mem_singleton, not_or]
          exact ⟨h2, h3⟩
        have e2 := alistSet_keys_of_not_mem _ u (r.source_reference.getD u) h2'
        simp only [citationStep, hu]
        rw [e2, e1, List.append_assoc]
        rfl
      have hnd' : ((citationStep m r).map Prod.fst ++ zoteroKeys rest).Nodup := by
        rw [hstep, List.append_assoc]
        simpa using hnd
      have := ih (citationStep m r) hnd'
      rw [List.foldl_cons, this, hstep, hz, List.append_assoc]
      rfl

theorem citation_fold_mem (rows : List ZoteroRow) : ∀ (m : List (String × String))
    (p : String × String), p ∈ rows.foldl citationStep m →
    p ∈ m ∨ ∃ r, r ∈ rows ∧ ∃ u, r.zotero_uri = some u ∧
      (p.1 = u ∨ p.1 = pyLower u) ∧ p.2 = r.source_reference.getD u := by
  induction rows with
  | nil => intro m p hp; left; exact hp
  | cons r rest ih =>
    intro m p hp
    rcases ih (citationStep m r) p hp with h | h
    · cases hu : r.zotero_uri with
      | none =>
        rw [show citationStep m r = m by simp [citationStep, hu]] at h
        left; exact h
      | some u =>
        rw [show citationStep m r =
            alistSet (alistSet m (pyLower u) (r.source_reference.getD u)) u
              (r.source_reference.getD u) by simp [citationStep, hu]] at h
        rcases mem_alistSet _ _ _ _ h with h' | h'
        · rcases mem_alistSet _ _ _ _ h' with h'' | h''
          · left; exact h''
          · right
            exact ⟨r, List.mem_cons_self _ _, u, hu, by rw [h'']; exact Or.inr rfl,
              by rw [h'']⟩
        · right
          exact ⟨r, List.mem_cons_self _ _, u, hu, by rw [h']; exact Or.inl rfl,
            by rw [h']⟩
    · obtain ⟨r', hr', rest'⟩ := h
      right
      exact ⟨r', List.mem_cons_of_mem _ hr', rest'⟩

/-! ### Claims C4–C9 -/
/-- Claim C4 (code bug): the location-text resolution used for location and
event rows is claimed never to raise; at an unresolvable URI with a
non-empty original description, `Person_Details.py` instead calls its
two-parameter `get_enriched_label` with three positional arguments and
Python raises `TypeError`. The theorem evaluates the model at that failing
input. -/
theorem resolve_location_text_raises :
    resolve_location_text { locations := [], poolparty := [] }
      "http://example.org/nowhere" "Cochin" =
    Except.error "TypeError: get_enriched_label() takes from 1 to 2 positional arguments but 3 were given" := rfl

/-- Claim C5 (confirmed): for every uri whose lowercasing is not a location
key and which (as given) is not a concept key, `get_enriched_label` returns
the fallback unchanged. -/
theorem resolve_label_fallback (e : Enrichment) (uri fallback : String)
    (hloc : alistFind e.locations (pyLower uri) = none)
    (hpp : alistFind e.poolparty uri = none) :
    get_enriched_label e uri fallback = fallback := by
  simp [get_enriched_label, hloc, hpp]

/-- Witness for C5: concrete non-empty maps in which the probed URI occurs
in neither map. -/
theorem resolve_label_fallback_witness :
    (alistFind (Enrichment.mk [("http://geo/batavia", { label := some "Batavia" })]
        [("http://pp/clerk", { label := some "klerk" })]).locations
        (pyLower "http://geo/Cochin") = none)
    ∧ (alistFind (Enrichment.mk [("http://geo/batavia", { label := some "Batavia" })]
        [("http://pp/clerk", { label := some "klerk" })]).poolparty
        "http://geo/Cochin" = none)
    ∧ get_enriched_label (Enrichment.mk [("http://geo/batavia", { label := some "Batavia" })]
        [("http://pp/clerk", { label := some "klerk" })]) "http://geo/Cochin" "fallback text"
        = "fallback text" :=
  ⟨by decide, by decide,
    resolve_label_fallback _ "http://geo/Cochin" "fallback text" (by decide) (by decide)⟩

/-- Claim C6 (counterexample): a location entry whose stored label is the
empty string is found for the lowercased URI, yet `get_enriched_label`
returns that empty label, not the supplied fallback `"fb"`: the code reads
`location_data.get('label', fallback)`, whose default applies only when the
`label` key is absent, not when its value is empty. -/
theorem resolve_label_empty_label_cex :
    alistFind (Enrichment.mk [("http://geo/x", { label := some "" })] []).locations
      (pyLower "http://geo/X") = some { label := some "" }
    ∧ get_enriched_label (Enrichment.mk [("http://geo/x", { label := some "" })] [])
        "http://geo/X" "fb" = ""
    ∧ ("" : String) ≠ "fb" := by
  refine ⟨by decide, by decide, by decide⟩

/-- Claim C6 (amended): when the lowercased uri is found in the location
map, the supplied fallback is returned exactly when the entry has no
`label` key; a stored label — the empty string included — is returned
as-is. -/
theorem resolve_label_location_hit (e : Enrichment) (uri fallback : String)
    (entry : LocationEntry)
    (h : alistFind e.locations (pyLower uri) = some entry) :
    (entry.label = none → get_enriched_label e uri fallback = fallback)
    ∧ ∀ s, entry.label = some s → get_enriched_label e uri fallback = s := by
  constructor
  · intro hl
    simp [get_enriched_label, h, hl]
  · intro s hl
    simp [get_enriched_label, h, hl]

/-- Witness for the amended C6: a stored empty label is returned as-is and
an entry without a label key falls back. -/
theorem resolve_label_location_hit_witness :
    (alistFind (Enrichment.mk [("http://geo/x", { label := some "" })] []).locations
      (pyLower "http://geo/x") = some { label := some "" })
    ∧ get_enriched_label (Enrichment.mk [("http://geo/x", { label := some "" })] [])
        "http://geo/x" "fb" = "" :=
  ⟨by decide,
    (resolve_label_location_hit (Enrichment.mk [("http://geo/x", { label := some "" })] [])
      "http://geo/x" "fb" { label := some "" } (by decide)).2 "" rfl⟩

/-- Claim C7 (confirmed): location lookups are case-insensitive — whenever
the lowercased URI is a location key, resolving the URI as given and
resolving its lowercasing agree (keys are lowercased on storage and lookup,
and lowercasing is idempotent) — while concept lookups are case-sensitive:
a URI absent from the concept map resolves to the fallback even when a
case-variant of it is a stored concept key. -/
theorem resolve_label_case_normalization :
    (∀ (e : Enrichment) (uri fallback : String) (entry : LocationEntry),
      alistFind e.locations (pyLower uri) = some entry →
      get_enriched_label e uri fallback = get_enriched_label e (pyLower uri) fallback)
    ∧ ∀ (e : Enrichment) (uri uriVariant fallback : String) (entry : ConceptEntry),
      pyLower uri = pyLower uriVariant → uri ≠ uriVariant →
      alistFind e.poolparty uriVariant = some entry →
      alistFind e.poolparty uri = none →
      alistFind e.locations (pyLower uri) = none →
      get_enriched_label e uri fallback = fallback := by
  constructor
  · intro e uri fallback entry h
    have hidem : pyLower (pyLower uri) = pyLower uri := pyLower_idem uri
    simp only [get_enriched_label, h, hidem]
  · intro e uri uriVariant fallback entry _ _ _ hpp hloc
    simp [get_enriched_label, hloc, hpp]

/-- Witness for C7: an upper-cased location URI resolves like its
lowercasing, and a concept URI differing only in case from the stored key
`http://pp/Clerk` does not match it. -/
theorem resolve_label_case_normalization_witness :
    (alistFind (Enrichment.mk [("http://geo/batavia", { label := some "Batavia" })]
        []).locations (pyLower "HTTP://GEO/BATAVIA") =
        some { label := some "Batavia" }
    ∧ get_enriched_label (Enrichment.mk [("http://geo/batavia", { label := some "Batavia" })] [])
        "HTTP://GEO/BATAVIA" "fb" =
      get_enriched_label (Enrichment.mk [("http://geo/batavia", { label := some "Batavia" })] [])
        (pyLower "HTTP://GEO/BATAVIA") "fb")
    ∧ pyLower "http://pp/clerk" = pyLower "http://pp/Clerk"
    ∧ get_enriched_label (Enrichment.mk [] [("http://pp/Clerk", { label := some "klerk" })])
        "http://pp/clerk" "fb" = "fb" :=
  ⟨⟨by decide,
    (resolve_label_case_normalization.1 _ "HTTP://GEO/BATAVIA" "fb"
      { label := some "Batavia" } (by decide))⟩,
   by decide,
   (resolve_label_case_normalization.2 _ "http://pp/clerk" "http://pp/Clerk" "fb"
      { label := some "klerk" } (by decide) (by decide) (by decide) (by decide) (by decide))⟩

/-- Claim C8 (counterexample): one input row whose non-empty URI is already
lowercase yields one citation-map entry, not the claimed
`2 × number of rows = 2`: both insertions hit the same key. -/
theorem citation_index_count_cex :
    build_citation_index
      [{ zotero_uri := some "http://zotero.org/item1", source_reference := some "Cite One" }]
      = [("http://zotero.org/item1", "Cite One")]
    ∧ (build_citation_index
        [{ zotero_uri := some "http://zotero.org/item1", source_reference := some "Cite One" }]).length
      ≠ 2 * 1 := by
  refine ⟨by decide, by decide⟩

/-- Claim C8 (amended): when the keys contributed by the rows — each
processed row's URI and its lowercase form — are pairwise distinct (in
particular no URI is already all-lowercase), the citation map's keys are
exactly those, its size is `2 ×` the number of rows carrying a URI, and
every entry maps one of a row's two key forms to that row's citation
string, or to the row's URI itself when it has no citation text. -/
theorem citation_index_amended (rows : List ZoteroRow)
    (hnd : (zoteroKeys rows).Nodup) :
    (build_citation_index rows).map Prod.fst = zoteroKeys rows
    ∧ (build_citation_index rows).length = 2 * rows.countP (fun r => r.zotero_uri.isSome)
    ∧ ∀ p ∈ build_citation_index rows, ∃ r, r ∈ rows ∧ ∃ u, r.zotero_uri = some u ∧
        (p.1 = u ∨ p.1 = pyLower u) ∧ p.2 = r.source_reference.getD u := by
  have hkeys : (build_citation_index rows).map Prod.fst = zoteroKeys rows := by
    have := citation_fold_keys rows [] (by simpa using hnd)
    simpa [build_citation_index] using this
  refine ⟨hkeys, ?_, ?_⟩
  · have hlen : (build_citation_index rows).length = (zoteroKeys rows).length := by
      rw [← hkeys, List.length_map]
    rw [hlen, zoteroKeys_length]
  · intro p hp
    rcases citation_fold_mem rows [] p hp with h | h
    · simp at h
    · exact h

/-- Witness for the amended C8: two rows, one of them without citation
text; the four contributed keys are distinct and the map has `2 × 2`
entries. -/
theorem citation_index_amended_witness :
    (zoteroKeys ([{ zotero_uri := some "http://zotero.org/A", source_reference := some "Cite A" },
                 { zotero_uri := some "http://zotero.org/B" }] : List ZoteroRow)).Nodup
    ∧ ((build_citation_index
          ([{ zotero_uri := some "http://zotero.org/A", source_reference := some "Cite A" },
           { zotero_uri := some "http://zotero.org/B" }] : List ZoteroRow)).map Prod.fst =
        zoteroKeys ([{ zotero_uri := some "http://zotero.org/A", source_reference := some "Cite A" },
                    { zotero_uri := some "http://zotero.org/B" }] : List ZoteroRow)
      ∧ (build_citation_index
          ([{ zotero_uri := some "http://zotero.org/A", source_reference := some "Cite A" },
           { zotero_uri := some "http://zotero.org/B" }] : List ZoteroRow)).length =
          2 * List.countP (fun r => r.zotero_uri.isSome)
            ([{ zotero_uri := some "http://zotero.org/A", source_reference := some "Cite A" },
             { zotero_uri := some "http://zotero.org/B" }] : List ZoteroRow)
      ∧ ∀ p ∈ build_citation_index
            ([{ zotero_uri := some "http://zotero.org/A", source_reference := some "Cite A" },
             { zotero_uri := some "http://zotero.org/B" }] : List ZoteroRow),
          ∃ r, r ∈ ([{ zotero_uri := some "http://zotero.org/A", source_reference := some "Cite A" },
                    { zotero_uri := some "http://zotero.org/B" }] : List ZoteroRow) ∧
            ∃ u, r.zotero_uri = some u ∧ (p.1 = u ∨ p.1 = pyLower u) ∧
              p.2 = r.source_reference.getD u) :=
  ⟨by decide, citation_index_amended _ (by decide)⟩

/-- Claim C9 (counterexample): a relation whose `otherPerson` value is the
empty string, in a dataset that does hold a cluster under the key `""`:
the value equals a cluster id verbatim, yet the resolver reports
not-found, because the code first tests the value for truthiness. -/
theorem cross_reference_cex :
    alistFind [("", { appellations := [{ appellation := some "Ghost" }] : Person })] ""
      = some { appellations := [{ appellation := some "Ghost" }] }
    ∧ resolve_cross_reference
        [("", { appellations := [{ appellation := some "Ghost" }] : Person })]
        { otherPerson := some "" } = none := by
  refine ⟨by decide, by decide⟩

/-- Claim C9 (amended): when a Relation's `otherPerson` value is non-empty
and equals a cluster id verbatim, the resolver returns that cluster
together with its primary display name — the `appellation` of its first
appellation record, `'Unknown'` when there is none; when the value is
empty or matches no cluster id, it returns the explicit not-found outcome
`none`; matching is exact key lookup only. -/
theorem cross_reference_amended :
    (∀ (all_data : List (String × Person)) (rel : Rec) (u : String) (p : Person),
      rel.otherPerson = some u → u ≠ "" → alistFind all_data u = some p →
      resolve_cross_reference all_data rel =
        some (u, p, ((p.appellations.head?.map (fun a => a.appellation.getD "Unknown")).getD
          "Unknown")))
    ∧ (∀ (all_data : List (String × Person)) (rel : Rec),
      alistFind all_data (rel.otherPerson.getD "") = none →
      resolve_cross_reference all_data rel = none)
    ∧ ∀ (all_data : List (String × Person)) (rel : Rec),
      rel.otherPerson.getD "" = "" → resolve_cross_reference all_data rel = none := by
  refine ⟨?_, ?_, ?_⟩
  · intro all_data rel u p hu hne hfind
    have hname : get_primary_name p =
        (p.appellations.head?.map (fun a => a.appellation.getD "Unknown")).getD "Unknown" := by
      cases hap : p.appellations with
      | nil => unfold get_primary_name; rw [hap]; rfl
      | cons a t => unfold get_primary_name; rw [hap]; rfl
    simp only [resolve_cross_reference, hu, Option.getD_some]
    rw [if_pos (by simpa using hne), hfind]
    show some (u, p, get_primary_name p) = _
    rw [hname]
  · intro all_data rel hfind
    simp only [resolve_cross_reference]
    by_cases h : rel.otherPerson.getD "" != ""
    · rw [if_pos h, hfind]
    · rw [if_neg h]
  · intro all_data rel h
    simp [resolve_cross_reference, h]

/-- Witness for the amended C9: a present target resolves to the cluster
and its first appellation; an absent one and an empty one report
not-found. -/
theorem cross_reference_amended_witness :
    (({ otherPerson := some "cluster-7" } : Rec).otherPerson = some "cluster-7"
    ∧ resolve_cross_reference
        [("cluster-7", { appellations := [{ appellation := some "Johannes" }] : Person })]
        { otherPerson := some "cluster-7" } =
        some ("cluster-7", { appellations := [{ appellation := some "Johannes" }] },
          "Johannes")
    ∧ resolve_cross_reference
        [("cluster-7", { appellations := [{ appellation := some "Johannes" }] : Person })]
        { otherPerson := some "cluster-9" } = none) :=
  ⟨rfl,
   cross_reference_amended.1
     [("cluster-7", { appellations := [{ appellation := some "Johannes" }] })]
     { otherPerson := some "cluster-7" } "cluster-7"
     { appellations := [{ appellation := some "Johannes" }] } rfl (by decide) (by decide),
   cross_reference_amended.2.1
     [("cluster-7", { appellations := [{ appellation := some "Johannes" }] })]
     { otherPerson := some "cluster-9" } (by decide)⟩

/-! ### Helper lemmas for the aggregation -/
theorem obsRecords_addDates (o : Observation) (l : List (Option String)) :
    obsRecords (addDates o l) = obsRecords o := rfl

theorem observationId_addDates (o : Observation) (l : List (Option String)) :
    (addDates o l).observation_id = o.observation_id := rfl

theorem source_addDates (o : Observation) (l : List (Option String)) :
    (addDates o l).source = o.source := rfl

theorem reconSource_addDates (o : Observation) (l : List (Option String)) :
    (addDates o l).reconstruction_source = o.reconstruction_source := rfl

theorem observationId_catAppend (c : Cat) (o : Observation) (r : Rec) :
    (catAppend c o r).observation_id = o.observation_id := by
  cases c <;> rfl

theorem source_catAppend (c : Cat) (o : Observation) (r : Rec) :
    (catAppend c o r).source = o.source := by
  cases c <;> rfl

theorem reconSource_catAppend (c : Cat) (o : Observation) (r : Rec) :
    (catAppend c o r).reconstruction_source = o.reconstruction_source := by
  cases c <;> rfl

theorem count_obsRecords_catAppend (c : Cat) (o : Observation) (rNew r : Rec) :
    (obsRecords (catAppend c o rNew)).count r =
      (obsRecords o).count r + List.count r [rNew] := by
  cases c <;> simp only [obsRecords, catAppend, List.count_append] <;> omega

theorem count_obsRecords_initObs (oid : String) (rNew r : Rec) :
    (obsRecords (initObs oid rNew)).count r = 0 := by
  simp [obsRecords, initObs]

theorem mem_obsRecords_catAppend (c : Cat) (o : Observation) (rNew x : Rec)
    (h : x ∈ obsRecords (catAppend c o rNew)) : x ∈ obsRecords o ∨ x = rNew := by
  cases c <;> simp only [obsRecords, catAppend, List.mem_append, List.mem_singleton] at h ⊢ <;>
    tauto

theorem recordCount_alistSet_upd (r : Rec) (m : List (String × Observation)) (k : String)
    (v0 : Observation) (f : Observation → Observation) (n : Nat)
    (hf : ∀ o, (obsRecords (f o)).count r = (obsRecords o).count r + n)
    (h0 : (obsRecords v0).count r = 0) :
    recordCount (alistSet m k (f ((alistFind m k).getD v0))) r = recordCount m r + n := by
  induction m with
  | nil =>
    simp only [alistFind, Option.getD_none, alistSet, recordCount, hf v0, h0]
    omega
  | cons kv t ih =>
    obtain ⟨k₀, w⟩ := kv
    by_cases h : k₀ = k
    · subst h
      rw [show alistFind ((k₀, w) :: t) k₀ = some w from if_pos rfl]
      simp only [Option.getD_some]
      rw [show alistSet ((k₀, w) :: t) k₀ (f w) = (k₀, f w) :: t from if_pos rfl]
      simp only [recordCount]
      rw [hf w]
      omega
    · rw [show alistFind ((k₀, w) :: t) k = alistFind t k from if_neg h]
      rw [show alistSet ((k₀, w) :: t) k (f ((alistFind t k).getD v0)) =
          (k₀, w) :: alistSet t k (f ((alistFind t k).getD v0)) from if_neg h]
      simp only [recordCount]
      rw [ih]
      omega

theorem truthy_some_iff (s : String) : truthy (some s) = true ↔ s ≠ "" := by
  simp [truthy]

theorem recordCount_step (c : Cat) (m : List (String × Observation)) (rNew r : Rec) :
    recordCount (step c m rNew) r =
      recordCount m r +
        (if truthy rNew.observation_id then List.count r [rNew] else 0) := by
  cases hoid : rNew.observation_id with
  | none => simp [step, hoid, truthy]
  | some oid =>
    by_cases hE : oid = ""
    · subst hE
      simp [step, hoid, truthy]
    · have htr : truthy (some oid) = true := (truthy_some_iff oid).mpr hE
      rw [show step c m rNew = alistSet m oid
          (addDates (catAppend c ((alistFind m oid).getD (initObs oid rNew)) rNew)
            (catDates c rNew)) from by rw [step, hoid]; exact if_neg hE]
      rw [htr, if_pos rfl]
      exact recordCount_alistSet_upd r m oid (initObs oid rNew)
        (fun o => addDates (catAppend c o rNew) (catDates c rNew)) (List.count r [rNew])
        (fun o => by rw [obsRecords_addDates]; exact count_obsRecords_catAppend c o rNew r)
        (count_obsRecords_initObs oid rNew r)

theorem recordCount_foldl (c : Cat) (l : List Rec) (r : Rec) : ∀ m,
    recordCount (l.foldl (step c) m) r =
      recordCount m r + (l.filter (fun x => truthy x.observation_id)).count r := by
  induction l with
  | nil => intro m; simp
  | cons a l ih =>
    intro m
    rw [List.foldl_cons, ih, recordCount_step]
    by_cases ha : truthy a.observation_id = true
    · rw [if_pos ha]
      have hfc : List.filter (fun x => truthy x.observation_id) (a :: l) =
          a :: List.filter (fun x => truthy x.observation_id) l := by
        simp [List.filter_cons, ha]
      rw [hfc]
      by_cases hra : (r == a) = true <;>
        simp [List.count_cons, List.count_nil, hra] <;> omega
    · rw [if_neg ha]
      have hfc : List.filter (fun x => truthy x.observation_id) (a :: l) =
          List.filter (fun x => truthy x.observation_id) l := by
        simp [List.filter_cons, ha]
      rw [hfc]
      omega

theorem aggInv_step (c : Cat) (m : List (String × Observation)) (rNew : Rec)
    (h : ∀ k o, (k, o) ∈ m → o.observation_id = k ∧ k ≠ "" ∧
      ∀ x ∈ obsRecords o, x.observation_id = some k) :
    ∀ k o, (k, o) ∈ step c m rNew → o.observation_id = k ∧ k ≠ "" ∧
      ∀ x ∈ obsRecords o, x.observation_id = some k := by
  intro k o hmem
  cases hoid : rNew.observation_id with
  | none =>
    simp only [step, hoid] at hmem
    exact h _ _ hmem
  | some oid =>
    by_cases hE : oid = ""
    · subst hE
      simp only [step, hoid, if_pos] at hmem
      exact h _ _ hmem
    · simp only [step, hoid, if_neg hE] at hmem
      rcases mem_alistSet _ _ _ _ hmem with hm | heq
      · exact h _ _ hm
      · have hk : k = oid := congrArg Prod.fst heq
        have ho : o = addDates
            (catAppend c ((alistFind m oid).getD (initObs oid rNew)) rNew)
            (catDates c rNew) := congrArg Prod.snd heq
        subst hk
        cases hfind : alistFind m k with
        | none =>
          rw [hfind] at ho
          simp only [Option.getD_none] at ho
          refine ⟨?_, hE, ?_⟩
          · rw [ho, observationId_addDates, observationId_catAppend]
            rfl
          · intro x hx
            rw [ho, obsRecords_addDates] at hx
            rcases mem_obsRecords_catAppend _ _ _ _ hx with hx' | hx'
            · simp [initObs, obsRecords] at hx'
            · rw [hx']
              exact hoid
        | some w =>
          rw [hfind] at ho
          simp only [Option.getD_some] at ho
          obtain ⟨hw1, _, hw3⟩ := h k w (alistFind_mem _ _ _ hfind)
          refine ⟨?_, hE, ?_⟩
          · rw [ho, observationId_addDates, observationId_catAppend, hw1]
          · intro x hx
            rw [ho, obsRecords_addDates] at hx
            rcases mem_obsRecords_catAppend _ _ _ _ hx with hx' | hx'
            · exact hw3 x hx'
            · rw [hx']
              exact hoid

theorem aggInv_foldl (c : Cat) (l : List Rec) : ∀ m : List (String × Observation),
    (∀ k o, (k, o) ∈ m → o.observation_id = k ∧ k ≠ "" ∧
      ∀ x ∈ obsRecords o, x.observation_id = some k) →
    ∀ k o, (k, o) ∈ l.foldl (step c) m → o.observation_id = k ∧ k ≠ "" ∧
      ∀ x ∈ obsRecords o, x.observation_id = some k := by
  induction l with
  | nil => intro m h; exact h
  | cons a l ih =>
    intro m h
    rw [List.foldl_cons]
    exact ih (step c m a) (aggInv_step c m a h)

theorem aggInv_aggregate (p : Person) :
    ∀ k o, (k, o) ∈ aggregateObservations p → o.observation_id = k ∧ k ≠ "" ∧
      ∀ x ∈ obsRecords o, x.observation_id = some k := by
  rw [aggregateObservations]
  refine aggInv_foldl _ _ _ (aggInv_foldl _ _ _ (aggInv_foldl _ _ _ (aggInv_foldl _ _ _
    (aggInv_foldl _ _ _ ?_))))
  intro k o hmem
  simp at hmem

theorem nodup_keys_step (c : Cat) (m : List (String × Observation)) (rNew : Rec)
    (h : (m.map Prod.fst).Nodup) : ((step c m rNew).map Prod.fst).Nodup := by
  cases hoid : rNew.observation_id with
  | none => simp only [step, hoid]; exact h
  | some oid =>
    by_cases hE : oid = ""
    · subst hE
      simp only [step, hoid, if_pos]
      exact h
    · simp only [step, hoid, if_neg hE]
      exact nodup_keys_alistSet _ _ _ h

theorem nodup_keys_foldl (c : Cat) (l : List Rec) : ∀ m : List (String × Observation),
    (m.map Prod.fst).Nodup → (((l.foldl (step c) m)).map Prod.fst).Nodup := by
  induction l with
  | nil => intro m h; exact h
  | cons a l ih =>
    intro m h
    rw [List.foldl_cons]
    exact ih (step c m a) (nodup_keys_step c m a h)

theorem nodup_keys_aggregate (p : Person) :
    ((aggregateObservations p).map Prod.fst).Nodup := by
  rw [aggregateObservations]
  exact nodup_keys_foldl _ _ _ (nodup_keys_foldl _ _ _ (nodup_keys_foldl _ _ _
    (nodup_keys_foldl _ _ _ (nodup_keys_foldl _ _ _ (by simp)))))

/-! ### Claims C1 and C10 -/
/-- Claim C1 (counterexample): a relations record carrying a truthy
`observation_id` never reaches any Observation — the timeline tab of
`Person_Details.py` has processing loops for five categories only, none for
`relations` — so the aggregation of a cluster holding just that record is
empty, and the record appears in zero (not exactly one) category lists. -/
theorem aggregate_relations_cex :
    truthy ({ observation_id := some "obs-1" } : Rec).observation_id = true
    ∧ aggregateObservations { relations := [{ observation_id := some "obs-1" }] } = []
    ∧ recordCount (aggregateObservations { relations := [{ observation_id := some "obs-1" }] })
        { observation_id := some "obs-1" } = 0 := by
  refine ⟨by decide, by decide, by decide⟩

/-- Claim C1 (amended): in the timeline aggregation of `Person_Details.py`,
every occurrence of a record with a truthy `observation_id` in one of the
five processed categories (activities, appellations, identities, locations,
events — relations are never aggregated) is stored in the category lists of
the result exactly once per occurrence, records without a truthy
`observation_id` are stored nowhere, every stored record sits in the
Observation keyed by its own `observation_id`, and each id keys at most one
Observation. -/
theorem aggregate_covers (p : Person) (r : Rec) :
    recordCount (aggregateObservations p) r =
      ((timelineRecords p).filter (fun x => truthy x.observation_id)).count r
    ∧ (∀ k o, (k, o) ∈ aggregateObservations p →
        o.observation_id = k ∧ k ≠ "" ∧ ∀ x ∈ obsRecords o, x.observation_id = some k)
    ∧ ((aggregateObservations p).map Prod.fst).Nodup := by
  refine ⟨?_, aggInv_aggregate p, nodup_keys_aggregate p⟩
  simp only [aggregateObservations, recordCount_foldl]
  simp only [timelineRecords, List.filter_append, List.count_append, recordCount]
  omega

theorem alistFind_step_of_found (c : Cat) (rNew : Rec) (m : List (String × Observation))
    (oid : String) (w : Observation) (hw : alistFind m oid = some w) :
    ∃ w', alistFind (step c m rNew) oid = some w' ∧ w'.source = w.source ∧
      w'.reconstruction_source = w.reconstruction_source := by
  cases hoid : rNew.observation_id with
  | none =>
    simp only [step, hoid]
    exact ⟨w, hw, rfl, rfl⟩
  | some oid' =>
    by_cases hE : oid' = ""
    · subst hE
      simp only [step, hoid, if_pos]
      exact ⟨w, hw, rfl, rfl⟩
    · simp only [step, hoid, if_neg hE]
      by_cases hkey : oid' = oid
      · subst hkey
        rw [hw]
        simp only [Option.getD_some]
        refine ⟨_, alistFind_alistSet_self _ _ _, ?_, ?_⟩
        · rw [source_addDates, source_catAppend]
        · rw [reconSource_addDates, reconSource_catAppend]
      · rw [alistFind_alistSet_ne _ _ _ _ (fun hh => hkey hh.symm)]
        exact ⟨w, hw, rfl, rfl⟩

theorem alistFind_step_of_match (c : Cat) (rNew : Rec) (m : List (String × Observation))
    (oid : String) (hnone : alistFind m oid = none)
    (hmatch : rNew.observation_id = some oid) (hne : oid ≠ "") :
    ∃ w', alistFind (step c m rNew) oid = some w' ∧
      w'.source = rNew.observation_source.getD "N/A" ∧
      w'.reconstruction_source = rNew.reconstruction_source.getD "N/A" := by
  simp only [step, hmatch, if_neg hne]
  rw [hnone]
  simp only [Option.getD_none]
  refine ⟨_, alistFind_alistSet_self _ _ _, ?_, ?_⟩
  · rw [source_addDates, source_catAppend]
    rfl
  · rw [reconSource_addDates, reconSource_catAppend]
    rfl

theorem alistFind_step_of_no_match (c : Cat) (rNew : Rec) (m : List (String × Observation))
    (oid : String) (hnone : alistFind m oid = none)
    (hnm : rNew.observation_id ≠ some oid) :
    alistFind (step c m rNew) oid = none := by
  cases hoid : rNew.observation_id with
  | none => simp only [step, hoid]; exact hnone
  | some oid' =>
    by_cases hE : oid' = ""
    · subst hE
      simp only [step, hoid, if_pos]
      exact hnone
    · simp only [step, hoid, if_neg hE]
      have hkey : oid' ≠ oid := fun hh => hnm (hh ▸ hoid)
      rw [alistFind_alistSet_ne _ _ _ _ (fun hh => hkey hh.symm)]
      exact hnone

theorem source_foldl (c : Cat) (l : List Rec) : ∀ (m : List (String × Observation))
    (oid : String) (o : Observation), oid ≠ "" →
    alistFind (l.foldl (step c) m) oid = some o →
    (∃ w, alistFind m oid = some w ∧ o.source = w.source ∧
      o.reconstruction_source = w.reconstruction_source)
    ∨ (alistFind m oid = none ∧
      ∃ r, l.find? (fun x => x.observation_id == some oid) = some r
        ∧ o.source = r.observation_source.getD "N/A"
        ∧ o.reconstruction_source = r.reconstruction_source.getD "N/A") := by
  induction l with
  | nil =>
    intro m oid o _ h
    exact Or.inl ⟨o, h, rfl, rfl⟩
  | cons a l ih =>
    intro m oid o hne h
    rw [List.foldl_cons] at h
    rcases ih (step c m a) oid o hne h with ⟨w', hfind', hs1, hs2⟩ | ⟨hnone', r, hr, hs1, hs2⟩
    · cases hm : alistFind m oid with
      | some w =>
        obtain ⟨w'', hfind'', hsw1, hsw2⟩ := alistFind_step_of_found c a m oid w hm
        rw [hfind''] at hfind'
        obtain hww : w'' = w' := Option.some.injEq _ _ ▸ hfind'
        exact Or.inl ⟨w, rfl, by rw [hs1, ← hww, hsw1], by rw [hs2, ← hww, hsw2]⟩
      | none =>
        by_cases hmatch : a.observation_id = some oid
        · obtain ⟨w'', hfind'', hsw1, hsw2⟩ := alistFind_step_of_match c a m oid hm hmatch hne
          rw [hfind''] at hfind'
          obtain hww : w'' = w' := Option.some.injEq _ _ ▸ hfind'
          refine Or.inr ⟨rfl, a, ?_, by rw [hs1, ← hww, hsw1], by rw [hs2, ← hww, hsw2]⟩
          rw [List.find?_cons_of_pos]
          simp [hmatch]
        · rw [alistFind_step_of_no_match c a m oid hm hmatch] at hfind'
          exact absurd hfind' (Option.noConfusion)
    · cases hm : alistFind m oid with
      | some w =>
        obtain ⟨w'', hfind'', _, _⟩ := alistFind_step_of_found c a m oid w hm
        rw [hfind''] at hnone'
        exact absurd hnone' (Option.noConfusion)
      | none =>
        by_cases hmatch : a.observation_id = some oid
        · obtain ⟨w'', hfind'', _, _⟩ := alistFind_step_of_match c a m oid hm hmatch hne
          rw [hfind''] at hnone'
          exact absurd hnone' (Option.noConfusion)
        · refine Or.inr ⟨rfl, r, ?_, hs1, hs2⟩
          rw [List.find?_cons_of_neg]
          · exact hr
          · simp [hmatch]

theorem foldl_find_none (c : Cat) (l : List Rec) : ∀ (m : List (String × Observation))
    (oid : String), oid ≠ "" →
    alistFind (l.foldl (step c) m) oid = none →
    alistFind m oid = none ∧
      l.find? (fun x => x.observation_id == some oid) = none := by
  induction l with
  | nil => intro m oid _ h; exact ⟨h, rfl⟩
  | cons a l ih =>
    intro m oid hne h
    rw [List.foldl_cons] at h
    obtain ⟨hstep, hl⟩ := ih (step c m a) oid hne h
    cases hm : alistFind m oid with
    | some w =>
      obtain ⟨w'', hfind'', _, _⟩ := alistFind_step_of_found c a m oid w hm
      rw [hfind''] at hstep
      exact absurd hstep (Option.noConfusion)
    | none =>
      by_cases hmatch : a.observation_id = some oid
      · obtain ⟨w'', hfind'', _, _⟩ := alistFind_step_of_match c a m oid hm hmatch hne
        rw [hfind''] at hstep
        exact absurd hstep (Option.noConfusion)
      · refine ⟨rfl, ?_⟩
        rw [List.find?_cons_of_neg]
        · exact hl
        · simp [hmatch]

/-- Claim C10 (confirmed): an Observation's `source` and
`reconstruction_source` are those of the first record bearing its id in the
visitation order activities, appellations, identities, locations, events —
with `'N/A'` substituted for an absent field at creation time — and no
later record of the same Observation ever replaces them. -/
theorem observation_source_first_write (p : Person) (oid : String) (o : Observation)
    (h : alistFind (aggregateObservations p) oid = some o) :
    ∃ r, (timelineRecords p).find? (fun x => x.observation_id == some oid) = some r
      ∧ o.source = r.observation_source.getD "N/A"
      ∧ o.reconstruction_source = r.reconstruction_source.getD "N/A" := by
  have hne : oid ≠ "" :=
    (aggInv_aggregate p oid o (alistFind_mem _ _ _ h)).2.1
  rw [aggregateObservations] at h
  rcases source_foldl .events p.events _ oid o hne h with
    ⟨w4, h4, hs4, ht4⟩ | ⟨h4, r, hr, hs, ht⟩
  · rcases source_foldl .locations p.locationRelations _ oid w4 hne h4 with
      ⟨w3, h3, hs3, ht3⟩ | ⟨h3, r, hr, hs, ht⟩
    · rcases source_foldl .identities p.identities _ oid w3 hne h3 with
        ⟨w2, h2, hs2, ht2⟩ | ⟨h2, r, hr, hs, ht⟩
      · rcases source_foldl .appellations p.appellations _ oid w2 hne h2 with
          ⟨w1, h1, hs1, ht1⟩ | ⟨h1, r, hr, hs, ht⟩
        · rcases source_foldl .activities p.activeAs _ oid w1 hne h1 with
            ⟨w0, h0, hs0, ht0⟩ | ⟨h0, r, hr, hs, ht⟩
          · simp [alistFind] at h0
          · refine ⟨r, ?_, by rw [hs4, hs3, hs2, hs1, hs], by rw [ht4, ht3, ht2, ht1, ht]⟩
            simp [timelineRecords, List.find?_append, hr]
        · obtain ⟨h0, hA1⟩ := foldl_find_none .activities p.activeAs _ oid hne h1
          refine ⟨r, ?_, by rw [hs4, hs3, hs2, hs], by rw [ht4, ht3, ht2, ht]⟩
          simp [timelineRecords, List.find?_append, hA1, hr]
      · obtain ⟨h1, hA2⟩ := foldl_find_none .appellations p.appellations _ oid hne h2
        obtain ⟨h0, hA1⟩ := foldl_find_none .activities p.activeAs _ oid hne h1
        refine ⟨r, ?_, by rw [hs4, hs3, hs], by rw [ht4, ht3, ht]⟩
        simp [timelineRecords, List.find?_append, hA1, hA2, hr]
    · obtain ⟨h2, hI⟩ := foldl_find_none .identities p.identities _ oid hne h3
      obtain ⟨h1, hA2⟩ := foldl_find_none .appellations p.appellations _ oid hne h2
      obtain ⟨h0, hA1⟩ := foldl_find_none .activities p.activeAs _ oid hne h1
      refine ⟨r, ?_, by rw [hs4, hs], by rw [ht4, ht]⟩
      simp [timelineRecords, List.find?_append, hA1, hA2, hI, hr]
  · obtain ⟨h3, hL⟩ := foldl_find_none .locations p.locationRelations _ oid hne h4
    obtain ⟨h2, hI⟩ := foldl_find_none .identities p.identities _ oid hne h3
    obtain ⟨h1, hA2⟩ := foldl_find_none .appellations p.appellations _ oid hne h2
    obtain ⟨h0, hA1⟩ := foldl_find_none .activities p.activeAs _ oid hne h1
    refine ⟨r, ?_, hs, ht⟩
    simp [timelineRecords, List.find?_append, hA1, hA2, hI, hL, hr]

/-- Witness for C10: the Observation's source is `'N/A'` (from the creating
activity record, which lacks the field) and stays `'N/A'` although the
later appellation record of the same observation carries `VOC 1234`. -/
theorem observation_source_first_write_witness :
    alistFind (aggregateObservations c10Person) "o1" = some c10Obs
    ∧ ∃ r, (timelineRecords c10Person).find? (fun x => x.observation_id == some "o1") = some r
        ∧ c10Obs.source = r.observation_source.getD "N/A"
        ∧ c10Obs.reconstruction_source = r.reconstruction_source.getD "N/A" :=
  ⟨by decide, observation_source_first_write c10Person "o1" c10Obs (by decide)⟩

theorem sortDate_of_empty (o : Observation) (h : o.dates = []) : sortDate o = "Unknown" := by
  unfold sortDate filteredDates
  rw [h]
  rfl

theorem sortDate_mem (o : Observation) (hne : o.dates ≠ [])
    (hall : ∀ d ∈ o.dates, d ≠ "") : sortDate o ∈ o.dates := by
  have hfil : filteredDates o = o.dates := by
    unfold filteredDates
    apply List.filter_eq_self.mpr
    intro a ha
    simpa using hall a ha
  rcases hs : List.insertionSort dateLe (filteredDates o) with _ | ⟨d, tl⟩
  · rw [hfil] at hs
    have hlen := List.length_insertionSort dateLe o.dates
    rw [hs] at hlen
    cases hd : o.dates with
    | nil => exact absurd hd hne
    | cons x xs => rw [hd] at hlen; simp at hlen
  · have hd : sortDate o = d := by unfold sortDate; rw [hs]
    rw [hd]
    have hmem : d ∈ List.insertionSort dateLe (filteredDates o) := by
      rw [hs]; exact List.mem_cons_self _ _
    rw [List.mem_insertionSort, hfil] at hmem
    exact hmem

/-- Claim C2 (counterexample): an Observation dated by the free-text string
`"circa 1680"` sorts after the undated sentinel, because
`"Unknown" < "circa 1680"` lexicographically (uppercase `U` precedes
lowercase `c`): the undated Observation comes first, not last. -/
theorem sequence_undated_last_cex :
    (sequenceTimeline [("d1", { observation_id := "d1", dates := ["circa 1680"] }),
        ("u1", { observation_id := "u1" })]).map Observation.observation_id = ["u1", "d1"]
    ∧ ({ observation_id := "d1", dates := ["circa 1680"] } : Observation).dates ≠ []
    ∧ ({ observation_id := "u1" } : Observation).dates = []
    ∧ pyLt "Unknown" "circa 1680" = true := by
  refine ⟨by decide, by decide, rfl, by decide⟩

/-- Claim C2 (amended): provided every date string is non-empty and
lexicographically smaller than the sentinel `"Unknown"` — which holds for
the dominant `YYYY` and `YYYY-MM-DD` formats, as any string starting with a
digit precedes `"Unknown"` — every Observation with an empty date set is
placed after every Observation with a non-empty date set: once an undated
Observation appears in the output, all later ones are undated too. -/
theorem obsLe_total : ∀ a b : Observation, obsLe a b ∨ obsLe b a :=
  fun a b => pyLe_total (sortDate a) (sortDate b)

theorem obsLe_trans : ∀ a b c : Observation, obsLe a b → obsLe b c → obsLe a c :=
  fun a b c h1 h2 => pyLe_trans (sortDate a) (sortDate b) (sortDate c) h1 h2

theorem tvLe_total : ∀ a b : String × TVObs, tvLe a b ∨ tvLe b a := by
  intro a b
  unfold tvLe
  rcases Nat.lt_trichotomy (tvSortKey a).1 (tvSortKey b).1 with h | h | h
  · exact Or.inl (Or.inl h)
  · rcases pyLe_total (tvSortKey a).2 (tvSortKey b).2 with hp | hp
    · exact Or.inl (Or.inr ⟨h, hp⟩)
    · exact Or.inr (Or.inr ⟨h.symm, hp⟩)
  · exact Or.inr (Or.inl h)

theorem tvLe_trans : ∀ a b c : String × TVObs, tvLe a b → tvLe b c → tvLe a c := by
  intro a b c hab hbc
  unfold tvLe at hab hbc ⊢
  rcases hab with h1 | ⟨h1, hp1⟩ <;> rcases hbc with h2 | ⟨h2, hp2⟩
  · exact Or.inl (by omega)
  · exact Or.inl (by omega)
  · exact Or.inl (by omega)
  · exact Or.inr ⟨h1.trans h2, pyLe_trans _ _ _ hp1 hp2⟩

theorem sequence_undated_last (m : List (String × Observation))
    (h : ∀ kv ∈ m, ∀ d ∈ kv.2.dates, d ≠ "" ∧ pyLt d "Unknown" = true) :
    (sequenceTimeline m).Pairwise (fun a b => a.dates = [] → b.dates = []) := by
  haveI : IsTotal Observation obsLe := ⟨obsLe_total⟩
  haveI : IsTrans Observation obsLe := ⟨obsLe_trans⟩
  have hsorted : (sequenceTimeline m).Pairwise obsLe :=
    List.sorted_insertionSort obsLe (m.map Prod.snd)
  refine List.Pairwise.imp_of_mem ?_ hsorted
  intro a b _ hb hab hae
  by_contra hbne
  have hb' : b ∈ m.map Prod.snd := (List.mem_insertionSort obsLe).mp hb
  obtain ⟨kv, hkv, hkvb⟩ := List.mem_map.mp hb'
  have hcond := h kv hkv
  rw [hkvb] at hcond
  have hbmem : sortDate b ∈ b.dates := sortDate_mem b hbne (fun d hd => (hcond d hd).1)
  have hblt : pyLt (sortDate b) "Unknown" = true := (hcond _ hbmem).2
  have hau : sortDate a = "Unknown" := sortDate_of_empty a hae
  unfold obsLe dateLe at hab
  rw [hau] at hab
  simp only [pyLe, Bool.not_eq_true'] at hab
  rw [hab] at hblt
  exact Bool.noConfusion hblt

/-- Witness for the amended C2 at a concrete input with a digit-leading
date. -/
theorem sequence_undated_last_witness :
    (∀ kv ∈ c2Timeline, ∀ d ∈ kv.2.dates, d ≠ "" ∧ pyLt d "Unknown" = true)
    ∧ (sequenceTimeline c2Timeline).Pairwise (fun a b => a.dates = [] → b.dates = []) :=
  ⟨by decide, sequence_undated_last c2Timeline (by decide)⟩

theorem tvSortKey_snd (x : String × TVObs) : (tvSortKey x).2 = x.1 := by
  obtain ⟨id, o⟩ := x
  cases hy : o.year <;> simp [tvSortKey, hy]

/-- Claim C3 (counterexample): in the `Person_Details.py` timeline sort, two
Observations with the identical sort-date string `"1680"` come out in
aggregation order `b, a` — there is no `observation_id` tie-break there
(the sort key is the sort date alone and Timsort is stable), so the output
is not in ascending id order. -/
theorem sequence_tiebreak_cex :
    sortDate { observation_id := "b", dates := ["1680"] } =
      sortDate { observation_id := "a", dates := ["1680"] }
    ∧ (sequenceTimeline [("b", { observation_id := "b", dates := ["1680"] }),
        ("a", { observation_id := "a", dates := ["1680"] })]).map
        Observation.observation_id = ["b", "a"]
    ∧ pyLt "a" "b" = true := by
  refine ⟨rfl, by decide, by decide⟩

/-- Claim C3 (amended): the `observation_id` tie-break holds in
`timeline_view.sort_observations`, whose sort key is the pair
`(year, observation_id)`: any two entries whose year components are equal —
in particular any two undated entries, which share the sentinel year 9999 —
appear in ascending (code-point lexicographic) `observation_id` order. The
`Person_Details.py` timeline sort has no such tie-break. -/
theorem sequence_tiebreak_amended (observations : List (String × TVObs)) :
    (sort_observations observations).Pairwise
      (fun a b => (tvSortKey a).1 = (tvSortKey b).1 → pyLe a.1 b.1 = true) := by
  haveI : IsTotal (String × TVObs) tvLe := ⟨tvLe_total⟩
  haveI : IsTrans (String × TVObs) tvLe := ⟨tvLe_trans⟩
  have hsorted : (sort_observations observations).Pairwise tvLe :=
    List.sorted_insertionSort tvLe observations
  refine hsorted.imp ?_
  intro a b hab
  intro heq
  rcases hab with h | ⟨_, hp⟩
  · exact absurd heq (Nat.ne_of_lt h)
  · rw [tvSortKey_snd, tvSortKey_snd] at hp
    exact hp
